import Mathlib

/-!
Verification development for `bhv_distance_app.py`, a Streamlit app that
geocodes uploaded addresses and computes an all-pairs distance/duration
matrix via the Google Distance Matrix API.

The Python functions are shallowly embedded as Lean definitions:
* the session geocode cache and the pairwise result dict become association
  lists with last-write-wins lookup (`dictGet`), matching Python dict
  semantics for the assignment orders that occur in the code;
* the external HTTP APIs become oracle functions passed in as arguments
  (`String → GeoResult` for geocoding, `DMParams → Except String DMResponse`
  for the distance matrix);
* Python floats become rationals, with `round(x, n)` embedded as
  round-half-to-even on ℚ (`pyRound`);
* exceptions become `Except` values.
-/

/-- Last-write-wins lookup in an association list whose entries are kept in
assignment order, i.e. the lookup of a Python dict built by a sequence of
`d[k] = v` assignments recorded as list entries in that order. -/
def dictGet {α β : Type} [DecidableEq α] : List (α × β) → α → Option β
  | [], _ => none
  | (k, v) :: rest, a =>
    match dictGet rest a with
    | some w => some w
    | none => if k = a then some v else none

/-- A single Python dict assignment `d[k] = v`: appended at the end so that
`dictGet` sees it as the most recent write. -/
def dictSet {α β : Type} (m : List (α × β)) (k : α) (v : β) : List (α × β) :=
  m ++ [(k, v)]

/-! ### Geocoder (`google_geocode`, lines 40-66)

The external geocoding call (either through the `googlemaps` client or the
raw HTTP endpoint; both branches of the source have the same observable
shape) is abstracted as an oracle returning one of three outcomes. -/

/-- Outcome of one external geocoding request: a first result with a
location, an empty result list, or a raised exception. -/
inductive GeoResult : Type
  | found (lat lng : ℚ)
  | empty
  | err (msg : String)
deriving DecidableEq

/-- The session geocode cache `st.session_state["geocode_cache"]`:
address string ↦ `some (lat, lng)` or the `None` sentinel (`none`). -/
abbrev GeoCache := List (String × Option (ℚ × ℚ))

/-- Embedding of `google_geocode(address, key)`.  Returns the result, the
updated cache, and the number of external API calls issued (0 or 1).
`if not address` on a string is the emptiness test; a cache hit returns the
cached value (including the cached `None` sentinel) without calling the API;
otherwise one external call is made and its outcome cached: coordinates on
success, the `None` sentinel on an empty result list or an exception. -/
def google_geocode (api : String → GeoResult) (cache : GeoCache)
    (address : String) : Option (ℚ × ℚ) × GeoCache × ℕ :=
  if address = "" then (none, cache, 0)
  else
    match dictGet cache address with
    | some v => (v, cache, 0)
    | none =>
      match api address with
      | .found lat lng => (some (lat, lng), dictSet cache address (some (lat, lng)), 1)
      | .empty => (none, dictSet cache address none, 1)
      | .err _ => (none, dictSet cache address none, 1)

/-! ### Address builder (`build_full_address`, lines 112-145) -/

/-- Whitespace stripping from both ends (`str.strip()`); Python also strips
some further Unicode space characters, which `Char.isWhitespace` does not
cover, but none occur in the properties considered here. -/
def pyStrip (s : String) : String :=
  String.mk (((s.toList.dropWhile Char.isWhitespace).reverse.dropWhile
    Char.isWhitespace).reverse)

/-- One input row restricted to the four address columns; `none` means the
column is absent from the mapping or the table (`col_or_empty` then yields
the empty string), `some s` is the raw cell content. -/
structure AddrRow : Type where
  street : Option String
  zipc : Option String
  city : Option String
  country : Option String
deriving DecidableEq

/-- The per-cell extraction `col_or_empty` / the country column handling:
an absent column contributes `""`, a present cell is stripped. -/
def cellOrEmpty : Option String → String
  | none => ""
  | some s => pyStrip s

/-- The body of the per-row loop of `build_full_address` (lines 127-143):
default the country to "Deutschland" when blank, collect the non-empty
segments (street; zip and city joined by a space; country), and join them
with ", ". -/
def buildRowAddress (row : AddrRow) : String :=
  let street := cellOrEmpty row.street
  let zipc := cellOrEmpty row.zipc
  let city := cellOrEmpty row.city
  let country0 := cellOrEmpty row.country
  let country := if country0 = "" then "Deutschland" else country0
  let placeParts := [zipc, city].filter (fun p => ¬ p = "")
  let segs :=
    (if street = "" then [] else [street]) ++
    (if placeParts = [] then [] else [String.intercalate " " placeParts]) ++
    (if country = "" then [] else [country])
  String.intercalate ", " segs

/-- Embedding of `build_full_address`: one formatted string per row. -/
def build_full_address (rows : List AddrRow) : List String :=
  rows.map buildRowAddress

/-! ### Rounding and unit conversion -/

/-- Round a rational to the nearest integer, ties to the even neighbour
(the rounding mode of Python `round`). -/
def roundHalfEven (q : ℚ) : ℤ :=
  let f := q.floor
  let r := q - (f : ℚ)
  if r < 1 / 2 then f
  else if 1 / 2 < r then f + 1
  else if f % 2 = 0 then f else f + 1

/-- Embedding of Python `round(q, ndigits)` on rationals. -/
def pyRound (ndigits : ℕ) (q : ℚ) : ℚ :=
  ((roundHalfEven (q * 10 ^ ndigits) : ℤ) : ℚ) / 10 ^ ndigits

/-! ### Batch distance client (`chunk_list` and `distance_matrix_batch`,
lines 68-110) -/

/-- Embedding of the generator `chunk_list(lst, size)`:
`for i in range(0, len(lst), size): yield lst[i : i + size]`.
`range(0, n, size)` has `⌈n / size⌉` elements (for `size > 0`; the source
only calls it with `size = 25`). -/
def chunk_list {α : Type} (lst : List α) (size : ℕ) : List (List α) :=
  (List.range' 0 ((lst.length + size - 1) / size) size).map
    (fun i => (lst.drop i).take size)

/-- One recorded pairwise result
`{"distance_m": ..., "duration_s": ..., "status": ...}`; `none` embeds
Python `None`.  The status is optional because `elem.get("status")` can
yield `None` for a malformed element. -/
structure PairResult : Type where
  distance_m : Option ℚ
  duration_s : Option ℚ
  status : Option String
deriving DecidableEq

/-- The query parameters of one Distance Matrix request (lines 78-86). -/
structure DMParams : Type where
  key : String
  mode : String
  units : String
  origins : String
  destinations : String
  departure_time : Option String
deriving DecidableEq

/-- One element of a Distance Matrix response row; the numeric fields are
optional since `elem["distance"]["value"]` can be absent (a `KeyError`). -/
structure DMElement : Type where
  status : Option String
  distance_value : Option ℚ
  duration_value : Option ℚ
deriving DecidableEq

/-- A parsed Distance Matrix response body: `data.get("rows", [])`, each row
with its `elements`. -/
structure DMResponse : Type where
  rows : List (List DMElement)
deriving DecidableEq

/-- The parameters built for one (origin-chunk, destination-chunk) request:
pipe-joined origins and destinations, and `departure_time = "now"` exactly
when `use_traffic and mode == "driving"`. -/
def mkParams (key mode units : String) (use_traffic : Bool)
    (oc dc : List String) : DMParams :=
  ⟨key, mode, units, String.intercalate "|" oc, String.intercalate "|" dc,
    if use_traffic ∧ mode = "driving" then some "now" else none⟩

/-- Processing of one response element (lines 97-103): an "OK" element
records its distance and duration values (a missing field raises a
`KeyError`), any other status records nulls with that status. -/
def parseElem (e : DMElement) : Except String PairResult :=
  if e.status = some "OK" then
    match e.distance_value, e.duration_value with
    | some dm, some ds => .ok ⟨some dm, some ds, some "OK"⟩
    | _, _ => .error "KeyError"
  else
    .ok ⟨none, none, e.status⟩

/-- The inner element loop for row `i` (lines 94-103), `j` counting from
`j0`: each element is keyed by `(o_chunk[i], d_chunk[j])`, an out-of-range
index raises an `IndexError`.  Entries are listed in assignment order. -/
def parseRowElems (oc dc : List String) (i : ℕ) :
    ℕ → List DMElement → Except String (List ((String × String) × PairResult))
  | _, [] => .ok []
  | j, e :: rest =>
    match oc.get? i, dc.get? j with
    | some o, some d =>
      match parseElem e with
      | .ok r =>
        match parseRowElems oc dc i (j + 1) rest with
        | .ok tail => .ok (((o, d), r) :: tail)
        | .error msg => .error msg
      | .error msg => .error msg
    | _, _ => .error "IndexError"

/-- The row loop over a successful response (lines 93-103), `i` counting
from `i0`: the dict assignments produced by parsing the rows, in assignment
order, or the exception that interrupts them.  (A partially executed loop
that then raises only ever assigned keys inside `o_chunk × d_chunk`, all of
which the `except` branch overwrites, so modelling an interrupted parse as
producing no entries is lookup-equivalent to the source.) -/
def parseRows (oc dc : List String) :
    ℕ → List (List DMElement) → Except String (List ((String × String) × PairResult))
  | _, [] => .ok []
  | i, row :: rest =>
    match parseRowElems oc dc i 0 row with
    | .ok entries =>
      match parseRows oc dc (i + 1) rest with
      | .ok tail => .ok (entries ++ tail)
      | .error msg => .error msg
    | .error msg => .error msg

/-- The `except` branch (lines 105-108): every pair of the chunk pair is
recorded with null distance and duration and a status embedding the error,
in assignment order. -/
def errEntries (oc dc : List String) (e : String) :
    List ((String × String) × PairResult) :=
  oc.flatMap (fun o => dc.map (fun d => ((o, d), ⟨none, none, some ("ERROR: " ++ e)⟩)))

/-- The dict assignments produced by one chunk-pair iteration of the body of
`distance_matrix_batch` (lines 78-109): issue the request through the API
oracle, parse a successful response, and on any exception (network/HTTP
error or parse failure) fall to the `except` branch. -/
def chunkEntries (api : DMParams → Except String DMResponse) (p : DMParams)
    (oc dc : List String) : List ((String × String) × PairResult) :=
  match api p with
  | .ok resp =>
    match parseRows oc dc 0 resp.rows with
    | .ok entries => entries
    | .error msg => errEntries oc dc msg
  | .error e => errEntries oc dc e

/-- The inner `for d_chunk in chunk_list(destinations, 25)` loop for a fixed
origin chunk: accumulated dict assignments and issued requests, in order. -/
def runDChunks (api : DMParams → Except String DMResponse)
    (key mode units : String) (use_traffic : Bool) (oc : List String) :
    List (List String) → List ((String × String) × PairResult) × List DMParams
  | [] => ([], [])
  | dc :: rest =>
    let p := mkParams key mode units use_traffic oc dc
    let here := chunkEntries api p oc dc
    let after := runDChunks api key mode units use_traffic oc rest
    (here ++ after.1, p :: after.2)

/-- The outer `for o_chunk in chunk_list(origins, 25)` loop. -/
def runOChunks (api : DMParams → Except String DMResponse)
    (key mode units : String) (use_traffic : Bool) :
    List (List String) → List (List String) →
    List ((String × String) × PairResult) × List DMParams
  | [], _ => ([], [])
  | oc :: rest, dchunks =>
    let here := runDChunks api key mode units use_traffic oc dchunks
    let after := runOChunks api key mode units use_traffic rest dchunks
    (here.1 ++ after.1, here.2 ++ after.2)

/-- Embedding of `distance_matrix_batch`: the accumulated result dict (as an
assignment-ordered association list, read with `dictGet`) together with the
list of requests issued, in order.  `max_origins = max_destinations = 25`. -/
def distance_matrix_batch (api : DMParams → Except String DMResponse)
    (origins destinations : List String) (key mode units : String)
    (use_traffic : Bool) :
    List ((String × String) × PairResult) × List DMParams :=
  runOChunks api key mode units use_traffic
    (chunk_list origins 25) (chunk_list destinations 25)

/-! ### Matrix assembly (lines 237-259) -/

/-- The default of `res.get((o, d), {...})` for a lookup miss (line 243). -/
def defaultResult : PairResult := ⟨none, none, some "N/A"⟩

/-- The distance cell computed by the fill loop (lines 243-248): convert
meters to km (metric) or miles (imperial) and round to 2 decimals; a null
recorded distance yields a null cell. -/
def fillDistCell (res : List ((String × String) × PairResult))
    (units : String) (o d : String) : Option ℚ :=
  let r := (dictGet res (o, d)).getD defaultResult
  match r.distance_m with
  | some m =>
    some (pyRound 2 (if units = "metric" then m / 1000 else m / (1609344 / 1000)))
  | none => none

/-- The duration cell computed by the fill loop (lines 249-253): seconds to
minutes, rounded to 1 decimal; a null recorded duration yields a null cell. -/
def fillTimeCell (res : List ((String × String) × PairResult))
    (o d : String) : Option ℚ :=
  let r := (dictGet res (o, d)).getD defaultResult
  match r.duration_s with
  | some s => some (pyRound 1 (s / 60))
  | none => none

/-- The status cell (line 254). -/
def fillStatusCell (res : List ((String × String) × PairResult))
    (o d : String) : Option String :=
  ((dictGet res (o, d)).getD defaultResult).status

/-- Overwrite cell `(i, i)` of a grid (one iteration of lines 256-259);
like `List.set`, out-of-range indices leave the grid unchanged (the source
never hits that case: the grids are `len(names)` square there). -/
def setDiagCell {α : Type} (g : List (List α)) (i : ℕ) (v : α) : List (List α) :=
  g.set i ((g.getD i []).set i v)

/-- The diagonal loop `for i in range(len(names))` (lines 256-259). -/
def overwriteDiag {α : Type} (g : List (List α)) (n : ℕ) (v : α) :
    List (List α) :=
  (List.range n).foldl (fun acc i => setDiagCell acc i v) g

/-- The three assembled grids. -/
structure Matrices : Type where
  dist_km : List (List (Option ℚ))
  time_min : List (List (Option ℚ))
  statusTbl : List (List (Option String))

/-- Embedding of the matrix assembly (lines 237-259): fill the three grids
cell by cell from the pairwise result dict (rows indexed by origins, columns
by destinations), then unconditionally overwrite the diagonal with
`(0.0, 0.0, "OK")` for every index of the name list. -/
def computeMatrices (res : List ((String × String) × PairResult))
    (names origins destinations : List String) (units : String) : Matrices :=
  let dist0 := origins.map (fun o => destinations.map (fun d => fillDistCell res units o d))
  let time0 := origins.map (fun o => destinations.map (fun d => fillTimeCell res o d))
  let stat0 := origins.map (fun o => destinations.map (fun d => fillStatusCell res o d))
  ⟨overwriteDiag dist0 names.length (some 0),
   overwriteDiag time0 names.length (some 0),
   overwriteDiag stat0 names.length (some "OK")⟩

/-- Cell access in a grid: `some` the cell when both indices are in range. -/
def cell2 {α : Type} (g : List (List α)) (i j : ℕ) : Option α :=
  (g[i]?).bind (fun row => row[j]?)

/-! ## Helper lemmas about dict lookup -/

theorem dictGet_append_right {α β : Type} [DecidableEq α] (m1 m2 : List (α × β))
    (a : α) (w : β) (h : dictGet m2 a = some w) : dictGet (m1 ++ m2) a = some w := by
  induction m1 with
  | nil => simpa using h
  | cons kv rest ih =>
    obtain ⟨k, v⟩ := kv
    simp only [List.cons_append, dictGet, List.append_eq, ih]

theorem dictGet_append_left {α β : Type} [DecidableEq α] (m1 m2 : List (α × β))
    (a : α) (h : dictGet m2 a = none) : dictGet (m1 ++ m2) a = dictGet m1 a := by
  induction m1 with
  | nil => simpa using h
  | cons kv rest ih =>
    obtain ⟨k, v⟩ := kv
    simp only [List.cons_append, dictGet, List.append_eq, ih]

theorem dictGet_dictSet {α β : Type} [DecidableEq α] (m : List (α × β))
    (k : α) (v : β) : dictGet (dictSet m k v) k = some v := by
  apply dictGet_append_right
  simp [dictGet]

/-! ## C10: geocoding an empty address -/

/-- C10: calling the geocoder with an empty (falsy) address string returns
none immediately, issues no external API call, and leaves the cache
unchanged (in particular no "not found" sentinel is stored). -/
theorem geocode_empty_address_noop (api : String → GeoResult) (cache : GeoCache) :
    google_geocode api cache "" = (none, cache, 0) := by
  simp [google_geocode]

/-! ## C3: geocode cache idempotence -/

/-- C3: after one geocode call with a (non-empty) address, that address is
cached, and a second call with the same address and no intervening cache
clear issues no external API call, returns exactly the cached value (which
is the first call's result), and leaves the cache unchanged. -/
theorem geocode_second_call_cached (api : String → GeoResult) (cache : GeoCache)
    (addr : String) (h : ¬ addr = "") :
    google_geocode api (google_geocode api cache addr).2.1 addr
      = ((google_geocode api cache addr).1, (google_geocode api cache addr).2.1, 0)
    ∧ dictGet (google_geocode api cache addr).2.1 addr
      = some (google_geocode api cache addr).1 := by
  cases hcache : dictGet cache addr with
  | some v => simp [google_geocode, h, hcache]
  | none =>
    cases hapi : api addr with
    | found lat lng => simp [google_geocode, h, hcache, hapi, dictGet_dictSet]
    | empty => simp [google_geocode, h, hcache, hapi, dictGet_dictSet]
    | err msg => simp [google_geocode, h, hcache, hapi, dictGet_dictSet]

theorem geocode_second_call_cached_witness :
    google_geocode (fun _ => GeoResult.empty)
        (google_geocode (fun _ => GeoResult.empty) [] "a").2.1 "a"
      = ((google_geocode (fun _ => GeoResult.empty) [] "a").1,
         (google_geocode (fun _ => GeoResult.empty) [] "a").2.1, 0)
    ∧ dictGet (google_geocode (fun _ => GeoResult.empty) [] "a").2.1 "a"
      = some (google_geocode (fun _ => GeoResult.empty) [] "a").1 :=
  geocode_second_call_cached (fun _ => GeoResult.empty) [] "a" (by decide)

/-! ## C5: address building with default country -/

/-- C5: for a row with street "Hauptstr. 1", zip "12345", city "Berlin" and
the country column absent or blank, the built address is
"Hauptstr. 1, 12345 Berlin, Deutschland": comma-joined segments in fixed
order (street; zip and city space-joined; country), with the country
defaulting to "Deutschland". -/
theorem build_address_fixed_order_default_country (c : Option String)
    (h : cellOrEmpty c = "") :
    buildRowAddress ⟨some "Hauptstr. 1", some "12345", some "Berlin", c⟩
      = "Hauptstr. 1, 12345 Berlin, Deutschland" := by
  simp only [buildRowAddress, h]
  decide

theorem build_address_fixed_order_default_country_witness :
    buildRowAddress ⟨some "Hauptstr. 1", some "12345", some "Berlin", none⟩
      = "Hauptstr. 1, 12345 Berlin, Deutschland" :=
  build_address_fixed_order_default_country none (by decide)

/-! ## C6: address building with all fields blank -/

/-- C6 counterexample: a row in which all four fields are absent does not
build the empty string; it builds "Deutschland" (the country default is
applied even when every field is blank). -/
theorem all_blank_address_not_empty :
    ¬ build_full_address [⟨none, none, none, none⟩] = [""]
    ∧ build_full_address [⟨none, none, none, none⟩] = ["Deutschland"] := by
  constructor
  · decide
  · decide

/-- C6 (amended): for every row in which street, zip, city and country are
all blank or absent, the built address string is "Deutschland" (the country
default), not the empty string. -/
theorem all_blank_address_is_deutschland (row : AddrRow)
    (hs : cellOrEmpty row.street = "") (hz : cellOrEmpty row.zipc = "")
    (hc : cellOrEmpty row.city = "") (hk : cellOrEmpty row.country = "") :
    buildRowAddress row = "Deutschland" := by
  simp [buildRowAddress, hs, hz, hc, hk]
  decide

theorem all_blank_address_is_deutschland_witness :
    buildRowAddress ⟨none, none, none, none⟩ = "Deutschland" :=
  all_blank_address_is_deutschland ⟨none, none, none, none⟩
    (by decide) (by decide) (by decide) (by decide)

/-! ## C8: lookup misses become "N/A" cells -/

/-- C8: a pair with no entry in the pairwise result map is filled with a
null distance cell, a null duration cell, and status "N/A". -/
theorem missing_pair_na_cells (res : List ((String × String) × PairResult))
    (units o d : String) (h : dictGet res (o, d) = none) :
    fillDistCell res units o d = none
    ∧ fillTimeCell res o d = none
    ∧ fillStatusCell res o d = some "N/A" := by
  refine ⟨?_, ?_, ?_⟩ <;>
    simp [fillDistCell, fillTimeCell, fillStatusCell, h, defaultResult]

theorem missing_pair_na_cells_witness :
    fillDistCell [] "metric" "A" "B" = none
    ∧ fillTimeCell [] "A" "B" = none
    ∧ fillStatusCell [] "A" "B" = some "N/A" :=
  missing_pair_na_cells [] "metric" "A" "B" (by decide)

/-! ## C7: unit conversion -/

unseal Rat.mul Rat.inv Rat.sub Rat.add in
/-- C7: a non-null recorded distance of m meters yields the cell
round(m / 1000, 2) under metric units and round(m / 1609.344, 2) under
imperial units; a non-null recorded duration of s seconds yields the cell
round(s / 60, 1); in particular 1000 m metric and 1609 m imperial both
yield 1.00. -/
theorem unit_conversion_cells :
    (∀ (res : List ((String × String) × PairResult)) (o d : String) (m : ℚ),
      ((dictGet res (o, d)).getD defaultResult).distance_m = some m →
      fillDistCell res "metric" o d = some (pyRound 2 (m / 1000))
      ∧ fillDistCell res "imperial" o d = some (pyRound 2 (m / (1609344 / 1000))))
    ∧ (∀ (res : List ((String × String) × PairResult)) (o d : String) (s : ℚ),
      ((dictGet res (o, d)).getD defaultResult).duration_s = some s →
      fillTimeCell res o d = some (pyRound 1 (s / 60)))
    ∧ fillDistCell [(("A", "B"), ⟨some 1000, some 60, some "OK"⟩)] "metric" "A" "B"
        = some 1
    ∧ fillDistCell [(("A", "B"), ⟨some 1609, some 60, some "OK"⟩)] "imperial" "A" "B"
        = some 1 := by
  refine ⟨fun res o d m h => ⟨?_, ?_⟩, fun res o d s h => ?_, ?_, ?_⟩
  · simp [fillDistCell, h]
  · simp [fillDistCell, h]
  · simp [fillTimeCell, h]
  · decide
  · decide

theorem unit_conversion_cells_witness :
    fillTimeCell [(("A", "B"), ⟨some 1000, some 60, some "OK"⟩)] "A" "B"
      = some (pyRound 1 (60 / 60)) :=
  unit_conversion_cells.2.1 [(("A", "B"), ⟨some 1000, some 60, some "OK"⟩)]
    "A" "B" 60 (by decide)

/-! ## Helper lemmas about the issued requests -/

theorem runDChunks_requests (api : DMParams → Except String DMResponse)
    (k m u : String) (t : Bool) (oc : List String) (dcs : List (List String)) :
    (runDChunks api k m u t oc dcs).2 = dcs.map (fun dc => mkParams k m u t oc dc) := by
  induction dcs with
  | nil => rfl
  | cons dc rest ih => simp only [runDChunks, List.map_cons, ih]

theorem runOChunks_requests (api : DMParams → Except String DMResponse)
    (k m u : String) (t : Bool) (ocs dcs : List (List String)) :
    (runOChunks api k m u t ocs dcs).2
      = ocs.flatMap (fun oc => dcs.map (fun dc => mkParams k m u t oc dc)) := by
  induction ocs with
  | nil => rfl
  | cons oc rest ih =>
    simp only [runOChunks, List.flatMap_cons, ih, runDChunks_requests]

theorem chunk_list_length_le {α : Type} (l : List α) (size : ℕ) (c : List α)
    (hc : c ∈ chunk_list l size) : c.length ≤ size := by
  simp only [chunk_list, List.mem_map] at hc
  obtain ⟨i, _, rfl⟩ := hc
  simp [List.length_take]

/-! ## C2: chunking and the Cartesian product of requests -/

/-- C2: every origin chunk and every destination chunk has at most 25
elements; the batch issues exactly one request per (origin-chunk,
destination-chunk) pair, in Cartesian-product order; and for 30 origins and
30 destinations exactly 4 chunk-pair requests are issued. -/
theorem batch_chunking_cartesian :
    (∀ (l c : List String), c ∈ chunk_list l 25 → c.length ≤ 25)
    ∧ (∀ (api : DMParams → Except String DMResponse) (os ds : List String)
        (k m u : String) (t : Bool),
        (distance_matrix_batch api os ds k m u t).2
          = (chunk_list os 25).flatMap
              (fun oc => (chunk_list ds 25).map (fun dc => mkParams k m u t oc dc)))
    ∧ (distance_matrix_batch (fun _ => Except.error "down")
        (List.replicate 30 "a") (List.replicate 30 "a") "k" "driving" "metric"
        true).2.length = 4 := by
  refine ⟨fun l c hc => chunk_list_length_le l 25 c hc, ?_, ?_⟩
  · intro api os ds k m u t
    simp only [distance_matrix_batch, runOChunks_requests]
  · decide

theorem batch_chunking_cartesian_witness :
    (List.replicate 25 "a").length ≤ 25 :=
  batch_chunking_cartesian.1 (List.replicate 30 "a") (List.replicate 25 "a")
    (by decide)

/-! ## C9: per-request parameters -/

/-- C9: every issued request carries departure_time "now" exactly when
traffic mode is enabled and the travel mode is "driving", and its origins
and destinations fields are the pipe-joined token strings of some origin
chunk and destination chunk. -/
theorem request_params_traffic_and_pipes
    (api : DMParams → Except String DMResponse) (os ds : List String)
    (k m u : String) (t : Bool) (p : DMParams)
    (hp : p ∈ (distance_matrix_batch api os ds k m u t).2) :
    (p.departure_time = some "now" ↔ (t = true ∧ m = "driving"))
    ∧ ∃ oc dc, oc ∈ chunk_list os 25 ∧ dc ∈ chunk_list ds 25
        ∧ p.origins = String.intercalate "|" oc
        ∧ p.destinations = String.intercalate "|" dc := by
  simp only [distance_matrix_batch, runOChunks_requests, List.mem_flatMap,
    List.mem_map] at hp
  obtain ⟨oc, hoc, dc, hdc, rfl⟩ := hp
  constructor
  · simp only [mkParams]
    split
    · rename_i hcond
      exact ⟨fun _ => hcond, fun _ => rfl⟩
    · rename_i hcond
      exact ⟨fun habs => Option.noConfusion habs, fun htm => absurd htm hcond⟩
  · exact ⟨oc, dc, hoc, hdc, rfl, rfl⟩

theorem request_params_traffic_and_pipes_witness :
    ((mkParams "k" "driving" "metric" true ["a"] ["b"]).departure_time
        = some "now" ↔ (true = true ∧ "driving" = "driving"))
    ∧ ∃ oc dc, oc ∈ chunk_list ["a"] 25 ∧ dc ∈ chunk_list ["b"] 25
        ∧ (mkParams "k" "driving" "metric" true ["a"] ["b"]).origins
            = String.intercalate "|" oc
        ∧ (mkParams "k" "driving" "metric" true ["a"] ["b"]).destinations
            = String.intercalate "|" dc :=
  request_params_traffic_and_pipes (fun _ => Except.error "x") ["a"] ["b"]
    "k" "driving" "metric" true (mkParams "k" "driving" "metric" true ["a"] ["b"])
    (by decide)

/-! ## Helper lemmas about the diagonal overwrite -/

theorem length_setDiagCell {α : Type} (g : List (List α)) (i : ℕ) (v : α) :
    (setDiagCell g i v).length = g.length := by
  simp [setDiagCell]

theorem rowLen_setDiagCell {α : Type} (g : List (List α)) (i : ℕ) (v : α)
    (j : ℕ) :
    ((setDiagCell g i v)[j]?).map List.length = (g[j]?).map List.length := by
  by_cases hij : i = j
  · subst hij
    by_cases hi : i < g.length
    · rw [setDiagCell, List.getElem?_set_self (by simpa using hi),
        List.getElem?_eq_getElem hi]
      simp [List.getD_eq_getElem?_getD, List.getElem?_eq_getElem hi]
    · rw [setDiagCell, List.set_eq_of_length_le (by omega)]
  · rw [setDiagCell, List.getElem?_set_ne hij]

theorem overwriteDiag_succ {α : Type} (g : List (List α)) (n : ℕ) (v : α) :
    overwriteDiag g (n + 1) v = setDiagCell (overwriteDiag g n v) n v := by
  rw [overwriteDiag, overwriteDiag, List.range_succ, List.foldl_append]
  rfl

theorem length_overwriteDiag {α : Type} (g : List (List α)) (n : ℕ) (v : α) :
    (overwriteDiag g n v).length = g.length := by
  induction n with
  | zero => rfl
  | succ n ih => rw [overwriteDiag_succ, length_setDiagCell, ih]

theorem rowLen_overwriteDiag {α : Type} (g : List (List α)) (n : ℕ) (v : α)
    (j : ℕ) :
    ((overwriteDiag g n v)[j]?).map List.length = (g[j]?).map List.length := by
  induction n with
  | zero => rfl
  | succ n ih => rw [overwriteDiag_succ, rowLen_setDiagCell, ih]

theorem cell2_overwriteDiag {α : Type} (g : List (List α)) (n : ℕ) (v : α)
    (i : ℕ) (hin : i < n) (hig : i < g.length)
    (hrow : i < (g.getD i []).length) :
    cell2 (overwriteDiag g n v) i i = some v := by
  induction n with
  | zero => omega
  | succ n ih =>
    rw [overwriteDiag_succ]
    by_cases hi : i = n
    · subst hi
      have hG : i < (overwriteDiag g i v).length := by
        rw [length_overwriteDiag]; exact hig
      have hrl := rowLen_overwriteDiag g i v i
      rw [List.getElem?_eq_getElem hG, List.getElem?_eq_getElem hig] at hrl
      have hlen : (overwriteDiag g i v)[i].length = g[i].length := by
        simpa using hrl
      have hrowi : i < ((overwriteDiag g i v).getD i []).length := by
        rw [List.getD_eq_getElem?_getD, List.getElem?_eq_getElem hG]
        rw [List.getD_eq_getElem?_getD, List.getElem?_eq_getElem hig] at hrow
        simpa [hlen] using hrow
      rw [cell2, setDiagCell, List.getElem?_set_self (by simpa using hG)]
      simp only [Option.some_bind]
      rw [List.getElem?_set_self hrowi]
    · have hin' : i < n := by omega
      have hne : n ≠ i := fun h => hi h.symm
      have := ih hin'
      rw [cell2] at this ⊢
      rw [setDiagCell, List.getElem?_set_ne hne]
      exact this

theorem grid_row_length {α : Type} (os ds : List String)
    (f : String → String → α) (i : ℕ) (hi : i < os.length) :
    ((os.map (fun o => ds.map (f o))).getD i []).length = ds.length := by
  rw [List.getD_eq_getElem?_getD, List.getElem?_map, List.getElem?_eq_getElem hi]
  simp

/-! ## C1: diagonal normalization -/

/-- C1: after matrix assembly (with the name, origin-token and
destination-token lists of equal length, as in the app), every diagonal
cell of the distance grid is 0.0, every diagonal cell of the duration grid
is 0.0, and every diagonal status cell is "OK", regardless of what the
pairwise result map contains for the self-pair. -/
theorem diagonal_normalized (res : List ((String × String) × PairResult))
    (names origins destinations : List String) (units : String)
    (ho : origins.length = names.length)
    (hd : destinations.length = names.length)
    (i : ℕ) (hi : i < names.length) :
    cell2 (computeMatrices res names origins destinations units).dist_km i i
      = some (some 0)
    ∧ cell2 (computeMatrices res names origins destinations units).time_min i i
      = some (some 0)
    ∧ cell2 (computeMatrices res names origins destinations units).statusTbl i i
      = some (some "OK") := by
  have hio : i < origins.length := by omega
  have hdist : (computeMatrices res names origins destinations units).dist_km
      = overwriteDiag
          (origins.map fun o => destinations.map fun d => fillDistCell res units o d)
          names.length (some 0) := rfl
  have htime : (computeMatrices res names origins destinations units).time_min
      = overwriteDiag
          (origins.map fun o => destinations.map fun d => fillTimeCell res o d)
          names.length (some 0) := rfl
  have hstat : (computeMatrices res names origins destinations units).statusTbl
      = overwriteDiag
          (origins.map fun o => destinations.map fun d => fillStatusCell res o d)
          names.length (some "OK") := rfl
  refine ⟨?_, ?_, ?_⟩
  · rw [hdist]
    apply cell2_overwriteDiag _ _ _ i hi (by simpa using hio)
    rw [grid_row_length _ _ _ i hio]
    omega
  · rw [htime]
    apply cell2_overwriteDiag _ _ _ i hi (by simpa using hio)
    rw [grid_row_length _ _ _ i hio]
    omega
  · rw [hstat]
    apply cell2_overwriteDiag _ _ _ i hi (by simpa using hio)
    rw [grid_row_length _ _ _ i hio]
    omega

theorem diagonal_normalized_witness :
    cell2 (computeMatrices [] ["A"] ["x"] ["x"] "metric").dist_km 0 0
      = some (some 0)
    ∧ cell2 (computeMatrices [] ["A"] ["x"] ["x"] "metric").time_min 0 0
      = some (some 0)
    ∧ cell2 (computeMatrices [] ["A"] ["x"] ["x"] "metric").statusTbl 0 0
      = some (some "OK") :=
  diagonal_normalized [] ["A"] ["x"] ["x"] "metric" rfl rfl 0 (by decide)

/-! ## Helper lemmas about chunk structure -/

theorem chunk_list25_cons {α : Type} (l : List α) (hl : l ≠ []) :
    chunk_list l 25 = l.take 25 :: chunk_list (l.drop 25) 25 := by
  have hpos : 1 ≤ l.length := List.length_pos.mpr hl
  have hN : (l.length + 25 - 1) / 25 = ((l.drop 25).length + 25 - 1) / 25 + 1 := by
    rw [List.length_drop]
    omega
  rw [chunk_list, hN, List.range'_succ, List.map_cons, List.drop_zero]
  rw [chunk_list]
  congr 1
  rw [← List.map_add_range' 25 0 _ 25, List.map_map]
  apply List.map_congr_left
  intro i _
  simp only [Function.comp_apply, List.drop_drop]

theorem chunk_list25_flatten_aux {α : Type} :
    ∀ (n : ℕ) (l : List α), l.length ≤ n → (chunk_list l 25).flatten = l := by
  intro n
  induction n with
  | zero =>
    intro l h
    have : l = [] := List.length_eq_zero.mp (Nat.le_zero.mp h)
    subst this
    simp [chunk_list]
  | succ n ih =>
    intro l h
    match l with
    | [] => simp [chunk_list]
    | x :: xs =>
      rw [chunk_list25_cons (x :: xs) (by simp), List.flatten_cons,
        ih ((x :: xs).drop 25) (by simp only [List.length_drop]; simp at h ⊢; omega)]
      exact List.take_append_drop 25 (x :: xs)

theorem chunk_list25_flatten {α : Type} (l : List α) :
    (chunk_list l 25).flatten = l :=
  chunk_list25_flatten_aux l.length l le_rfl

theorem chunk_list25_ne_nil {α : Type} (l : List α) (c : List α)
    (hc : c ∈ chunk_list l 25) : c ≠ [] := by
  simp only [chunk_list, List.mem_map] at hc
  obtain ⟨i, hi, rfl⟩ := hc
  rw [List.mem_range'] at hi
  obtain ⟨j, hj, rfl⟩ := hi
  have hlt : 25 * j < l.length := by omega
  intro habs
  have := congrArg List.length habs
  simp only [List.length_take, List.length_drop, List.length_nil] at this
  omega

theorem pairwise_disjoint_nodup {α : Type} (L : List (List α))
    (hne : ∀ c ∈ L, c ≠ []) (hdisj : L.Pairwise List.Disjoint) : L.Nodup := by
  induction L with
  | nil => simp
  | cons hd tl ih =>
    rcases List.pairwise_cons.mp hdisj with ⟨hhd, htl⟩
    refine List.nodup_cons.mpr
      ⟨?_, ih (fun c hc => hne c (List.mem_cons_of_mem _ hc)) htl⟩
    intro hmem
    have hd_ne : hd ≠ [] := hne hd (List.mem_cons_self _ _)
    obtain ⟨x, hx⟩ := List.exists_mem_of_ne_nil hd hd_ne
    exact (hhd hd hmem) hx hx

theorem chunk_list25_nodup {α : Type} [DecidableEq α] (l : List α)
    (hl : l.Nodup) :
    (chunk_list l 25).Nodup ∧ (chunk_list l 25).Pairwise List.Disjoint := by
  have hfl : (chunk_list l 25).flatten.Nodup := by
    rw [chunk_list25_flatten]; exact hl
  have hp := (List.nodup_flatten.mp hfl).2
  exact ⟨pairwise_disjoint_nodup _ (chunk_list25_ne_nil l) hp, hp⟩

/-! ## Helper lemmas about the keys recorded by the batch -/

theorem dictGet_eq_none_of_keys {α β : Type} [DecidableEq α]
    (m : List (α × β)) (a : α) (h : ∀ x ∈ m, x.1 ≠ a) : dictGet m a = none := by
  induction m with
  | nil => rfl
  | cons kv rest ih =>
    obtain ⟨k, v⟩ := kv
    have hrest : dictGet rest a = none :=
      ih (fun x hx => h x (List.mem_cons_of_mem _ hx))
    simp only [dictGet, hrest]
    exact if_neg (h (k, v) (List.mem_cons_self _ _))

theorem parseRowElems_keys (oc dc : List String) (i : ℕ) :
    ∀ (j : ℕ) (es : List DMElement)
      (entries : List ((String × String) × PairResult)),
      parseRowElems oc dc i j es = .ok entries →
      ∀ x ∈ entries, x.1.1 ∈ oc ∧ x.1.2 ∈ dc := by
  intro j es
  induction es generalizing j with
  | nil =>
    intro entries h x hx
    simp only [parseRowElems] at h
    cases h
    simp at hx
  | cons e rest ih =>
    intro entries h x hx
    rw [parseRowElems] at h
    cases hoc : oc.get? i with
    | none => rw [hoc] at h; cases hdc : dc.get? j <;> rw [hdc] at h <;> cases h
    | some o =>
      rw [hoc] at h
      cases hdc : dc.get? j with
      | none => rw [hdc] at h; cases h
      | some d =>
        rw [hdc] at h
        cases hpe : parseElem e with
        | error msg => rw [hpe] at h; cases h
        | ok r =>
          rw [hpe] at h
          cases hrec : parseRowElems oc dc i (j + 1) rest with
          | error msg => rw [hrec] at h; cases h
          | ok tail =>
            rw [hrec] at h
            cases h
            rcases List.mem_cons.mp hx with hx1 | hx2
            · subst hx1
              exact ⟨List.get?_mem hoc, List.get?_mem hdc⟩
            · exact ih (j + 1) tail hrec x hx2

theorem parseRows_keys (oc dc : List String) :
    ∀ (i : ℕ) (rows : List (List DMElement))
      (entries : List ((String × String) × PairResult)),
      parseRows oc dc i rows = .ok entries →
      ∀ x ∈ entries, x.1.1 ∈ oc ∧ x.1.2 ∈ dc := by
  intro i rows
  induction rows generalizing i with
  | nil =>
    intro entries h x hx
    simp only [parseRows] at h
    cases h
    simp at hx
  | cons row rest ih =>
    intro entries h x hx
    rw [parseRows] at h
    cases hrow : parseRowElems oc dc i 0 row with
    | error msg => rw [hrow] at h; cases h
    | ok here =>
      rw [hrow] at h
      cases hrec : parseRows oc dc (i + 1) rest with
      | error msg => rw [hrec] at h; cases h
      | ok tail =>
        rw [hrec] at h
        cases h
        rcases List.mem_append.mp hx with hx1 | hx2
        · exact parseRowElems_keys oc dc i 0 row here hrow x hx1
        · exact ih (i + 1) tail hrec x hx2

theorem errEntries_keys (oc dc : List String) (e : String) :
    ∀ x ∈ errEntries oc dc e, x.1.1 ∈ oc ∧ x.1.2 ∈ dc := by
  intro x hx
  simp only [errEntries, List.mem_flatMap, List.mem_map] at hx
  obtain ⟨o, ho, d, hd, rfl⟩ := hx
  exact ⟨ho, hd⟩

theorem chunkEntries_keys (api : DMParams → Except String DMResponse)
    (p : DMParams) (oc dc : List String) :
    ∀ x ∈ chunkEntries api p oc dc, x.1.1 ∈ oc ∧ x.1.2 ∈ dc := by
  intro x hx
  cases hapi : api p with
  | error e =>
    simp only [chunkEntries, hapi] at hx
    exact errEntries_keys oc dc e x hx
  | ok resp =>
    cases hparse : parseRows oc dc 0 resp.rows with
    | error msg =>
      simp only [chunkEntries, hapi, hparse] at hx
      exact errEntries_keys oc dc msg x hx
    | ok entries =>
      simp only [chunkEntries, hapi, hparse] at hx
      exact parseRows_keys oc dc 0 resp.rows entries hparse x hx

/-! ## Helper lemmas about looking up a pair in the accumulated results -/

theorem runDChunks_results (api : DMParams → Except String DMResponse)
    (k m u : String) (t : Bool) (oc : List String) (dcs : List (List String)) :
    (runDChunks api k m u t oc dcs).1
      = dcs.flatMap (fun dc => chunkEntries api (mkParams k m u t oc dc) oc dc) := by
  induction dcs with
  | nil => rfl
  | cons dc rest ih => simp only [runDChunks, List.flatMap_cons, ih]

theorem runOChunks_results (api : DMParams → Except String DMResponse)
    (k m u : String) (t : Bool) (ocs dcs : List (List String)) :
    (runOChunks api k m u t ocs dcs).1
      = ocs.flatMap (fun oc => (runDChunks api k m u t oc dcs).1) := by
  induction ocs with
  | nil => rfl
  | cons oc rest ih => simp only [runOChunks, List.flatMap_cons, ih]

theorem runDChunks_keys (api : DMParams → Except String DMResponse)
    (k m u : String) (t : Bool) (oc : List String) (dcs : List (List String)) :
    ∀ x ∈ (runDChunks api k m u t oc dcs).1, x.1.1 ∈ oc := by
  intro x hx
  rw [runDChunks_results] at hx
  rcases List.mem_flatMap.mp hx with ⟨dc, _, hmem⟩
  exact (chunkEntries_keys api _ oc dc x hmem).1

/-- Looking up a key in the concatenation of the entry lists of a
duplicate-free list of chunks reduces to looking it up in the entries of
the one chunk that can mention the key. -/
theorem dictGet_flatMap_eq {γ κ β : Type} [DecidableEq γ] [DecidableEq κ]
    (L : List γ) (f : γ → List (κ × β)) (k : κ) (c : γ)
    (hL : L.Nodup) (hc : c ∈ L)
    (hothers : ∀ o ∈ L, o ≠ c → ∀ x ∈ f o, x.1 ≠ k) :
    dictGet (L.flatMap f) k = dictGet (f c) k := by
  induction L with
  | nil => cases hc
  | cons hd tl ih =>
    rcases List.nodup_cons.mp hL with ⟨hhd, htl⟩
    rw [List.flatMap_cons]
    rcases List.mem_cons.mp hc with hceq | hctl
    · subst hceq
      have htlnone : dictGet (tl.flatMap f) k = none := by
        apply dictGet_eq_none_of_keys
        intro x hx
        rcases List.mem_flatMap.mp hx with ⟨o, ho, hmem⟩
        have hne : o ≠ c := fun h => hhd (h ▸ ho)
        exact hothers o (List.mem_cons_of_mem _ ho) hne x hmem
      exact dictGet_append_left _ _ _ htlnone
    · have hne : hd ≠ c := fun h => hhd (h ▸ hctl)
      have hih : dictGet (tl.flatMap f) k = dictGet (f c) k :=
        ih htl hctl (fun o ho hone => hothers o (List.mem_cons_of_mem _ ho) hone)
      cases hfc : dictGet (f c) k with
      | some w =>
        exact dictGet_append_right _ _ _ _ (hih.trans hfc)
      | none =>
        rw [dictGet_append_left _ _ _ (hih.trans hfc)]
        apply dictGet_eq_none_of_keys
        exact fun x hx => hothers hd (List.mem_cons_self _ _) hne x hx

/-! ## Helper lemmas about the error entries of a failed chunk pair -/

theorem dictGet_errRow (o0 : String) (dc : List String) (v : PairResult)
    (d : String) (hd : d ∈ dc) :
    dictGet (dc.map (fun d2 => ((o0, d2), v))) (o0, d) = some v := by
  induction dc with
  | nil => cases hd
  | cons d0 rest ih =>
    simp only [List.map_cons, dictGet]
    by_cases hdr : d ∈ rest
    · rw [ih hdr]
    · have hd0 : d = d0 := by
        rcases List.mem_cons.mp hd with h | h
        · exact h
        · exact absurd h hdr
      have hnone : dictGet (rest.map fun d2 => ((o0, d2), v)) (o0, d) = none := by
        apply dictGet_eq_none_of_keys
        intro x hx
        rcases List.mem_map.mp hx with ⟨d2, hd2, rfl⟩
        intro habs
        simp only [Prod.mk.injEq] at habs
        exact hdr (habs.2 ▸ hd2)
      rw [hnone, hd0]
      simp

theorem dictGet_errEntries (oc dc : List String) (e : String) (o d : String)
    (ho : o ∈ oc) (hd : d ∈ dc) :
    dictGet (errEntries oc dc e) (o, d)
      = some ⟨none, none, some ("ERROR: " ++ e)⟩ := by
  induction oc with
  | nil => cases ho
  | cons o0 rest ih =>
    rw [errEntries, List.flatMap_cons]
    by_cases hor : o ∈ rest
    · exact dictGet_append_right _ _ _ _ (by rw [← errEntries]; exact ih hor)
    · have ho0 : o = o0 := by
        rcases List.mem_cons.mp ho with h | h
        · exact h
        · exact absurd h hor
      have hnone : dictGet (errEntries rest dc e) (o, d) = none := by
        apply dictGet_eq_none_of_keys
        intro x hx
        intro habs
        have hfst : x.1.1 = o := congrArg Prod.fst habs
        exact hor (hfst ▸ (errEntries_keys rest dc e x hx).1)
      rw [← errEntries, dictGet_append_left _ _ _ hnone, ho0]
      exact dictGet_errRow o0 dc _ d hd

/-! ## C4: per-chunk failure recording and failure isolation -/

/-- C4: the result recorded for a pair (o, d) is determined solely by its
own chunk pair (oc, dc): if the request for that chunk pair fails at the
request level, every pair of the chunk pair is recorded with null distance
and duration and a status string embedding the error, and if its request
succeeds and parses, the pair receives exactly the entries of its own
successful response, untouched by failures of other chunk pairs. -/
theorem batch_failure_isolation
    (api : DMParams → Except String DMResponse) (os ds : List String)
    (k m u : String) (t : Bool) (hos : os.Nodup) (hds : ds.Nodup)
    (oc dc : List String) (hoc : oc ∈ chunk_list os 25)
    (hdc : dc ∈ chunk_list ds 25) (o d : String) (ho : o ∈ oc) (hd : d ∈ dc) :
    dictGet (distance_matrix_batch api os ds k m u t).1 (o, d)
      = dictGet (chunkEntries api (mkParams k m u t oc dc) oc dc) (o, d)
    ∧ (∀ e, api (mkParams k m u t oc dc) = Except.error e →
        dictGet (distance_matrix_batch api os ds k m u t).1 (o, d)
          = some ⟨none, none, some ("ERROR: " ++ e)⟩)
    ∧ (∀ resp entries, api (mkParams k m u t oc dc) = Except.ok resp →
        parseRows oc dc 0 resp.rows = Except.ok entries →
        dictGet (distance_matrix_batch api os ds k m u t).1 (o, d)
          = dictGet entries (o, d)) := by
  obtain ⟨hnodupO, hpO⟩ := chunk_list25_nodup os hos
  obtain ⟨hnodupD, hpD⟩ := chunk_list25_nodup ds hds
  have hOforall := hpO.forall (fun a b h2 => List.Disjoint.symm h2)
  have hDforall := hpD.forall (fun a b h2 => List.Disjoint.symm h2)
  have hothersO : ∀ oc2 ∈ chunk_list os 25, oc2 ≠ oc →
      ∀ x ∈ (runDChunks api k m u t oc2 (chunk_list ds 25)).1, x.1 ≠ (o, d) := by
    intro oc2 hoc2 hne x hx habs
    have hx1 : x.1.1 ∈ oc2 := runDChunks_keys api k m u t oc2 _ x hx
    have hfst : x.1.1 = o := by rw [habs]
    exact (hOforall hoc2 hoc hne) (hfst ▸ hx1) ho
  have hothersD : ∀ dc2 ∈ chunk_list ds 25, dc2 ≠ dc →
      ∀ x ∈ chunkEntries api (mkParams k m u t oc dc2) oc dc2, x.1 ≠ (o, d) := by
    intro dc2 hdc2 hne x hx habs
    have hx2 : x.1.2 ∈ dc2 := (chunkEntries_keys api _ oc dc2 x hx).2
    have hsnd : x.1.2 = d := by rw [habs]
    exact (hDforall hdc2 hdc hne) (hsnd ▸ hx2) hd
  have hmain : dictGet (distance_matrix_batch api os ds k m u t).1 (o, d)
      = dictGet (chunkEntries api (mkParams k m u t oc dc) oc dc) (o, d) := by
    rw [distance_matrix_batch, runOChunks_results,
      dictGet_flatMap_eq _ _ _ oc hnodupO hoc hothersO,
      runDChunks_results,
      dictGet_flatMap_eq _ _ _ dc hnodupD hdc hothersD]
  refine ⟨hmain, ?_, ?_⟩
  · intro e he
    rw [hmain]
    simp only [chunkEntries, he]
    exact dictGet_errEntries oc dc e o d ho hd
  · intro resp entries hresp hparse
    rw [hmain]
    simp only [chunkEntries, hresp, hparse]

theorem batch_failure_isolation_witness :
    dictGet (distance_matrix_batch (fun _ => Except.error "down")
        ["a"] ["b"] "k" "driving" "metric" true).1 ("a", "b")
      = some ⟨none, none, some ("ERROR: " ++ "down")⟩ :=
  (batch_failure_isolation (fun _ => Except.error "down") ["a"] ["b"]
      "k" "driving" "metric" true (by decide) (by decide)
      ["a"] ["b"] (by decide) (by decide) "a" "b" (by decide) (by decide)).2.1
    "down" rfl
